import Mathlib

/-
  Verification of the Scheduling / Queue-Execution / Reconciliation engine of the
  instagram-ai-bot repository, as described by its natural-language specification.

  The shallow embedding below translates the relevant TypeScript source files:
  * `ScheduleConfigModal` (TIME_RE, nextTimeSlot, normalizeTimes, normalizeDaySchedule,
    updateDay) — day-schedule normalization;
  * `SchedulerPanel` (formatNextRun, the remove-button guard);
  * `PostsHistory` / `PostDetailModal` (canRetry / canPublish guards);
  * `useScheduler` / `usePolling` hooks (toggle payload, 30s polling);
  * the `syncNow` callback of the dashboard App (sweep-report message);
  * the scheduler type declarations (DaySchedule, SchedulerConfig, QueueItem,
    NextRun, SchedulerState).
  JavaScript semantics (parseInt, `%`, `||` fallbacks, padStart, slice, trim) are
  embedded explicitly as `js*` helpers.  The backend Execution Runner and Queue
  Store are not present in the sources; where a claim depends on them they are
  modelled from the specification text, and marked as such.
-/

/-! ## JavaScript string / number primitives -/

/-- Boolean `≤` on characters (by code point). -/
def charLe (a b : Char) : Bool := Nat.ble a.toNat b.toNat

/-- ASCII decimal digit test ('0'..'9'). -/
def isDigitChar (c : Char) : Bool := charLe '0' c && charLe c '9'

/-- JavaScript whitespace (the characters relevant to `trim` / `parseInt`). -/
def isJsWS (c : Char) : Bool := c == ' ' || c == '\t' || c == '\n' || c == '\r'

/-- Value of a list of decimal digit characters, most significant first. -/
def digitsVal (cs : List Char) : Nat := cs.foldl (fun a c => a * 10 + (c.toNat - 48)) 0

/-- Parse a maximal run of leading decimal digits; `none` when there is none
(JavaScript `parseInt` returning `NaN`). -/
def parseDigits (cs : List Char) : Option Int :=
  let ds := cs.takeWhile isDigitChar
  if ds.isEmpty then none else some (digitsVal ds)

/-- Embedded `Number.parseInt(s, 10)`: skip leading whitespace, optional sign, leading digits. -/
def jsParseIntChars (cs : List Char) : Option Int :=
  match cs.dropWhile isJsWS with
  | '-' :: r => (parseDigits r).map (fun n => -n)
  | '+' :: r => parseDigits r
  | r => parseDigits r

/-- Embedded `Number.parseInt(s, 10)` on a string; `none` models `NaN`. -/
def jsParseInt (s : String) : Option Int := jsParseIntChars s.data

/-- JavaScript `%` (remainder with the sign of the dividend) for a positive modulus. -/
def jsMod (a : Int) (b : Nat) : Int :=
  if a ≥ 0 then ((a.toNat % b : Nat) : Int) else -((((-a).toNat % b : Nat) : Int))

/-- Embedded `String(n).padStart(2, "0")`. -/
def padStart2 (n : Int) : String :=
  let s := toString n
  if s.length < 2 then "0" ++ s else s

/-- JavaScript `s.slice(a, b)` for `0 ≤ a ≤ b`. -/
def strSlice (s : String) (a b : Nat) : String := ⟨(s.data.drop a).take (b - a)⟩

/-- JavaScript `s.trim()`. -/
def jsTrim (s : String) : String :=
  ⟨((s.data.dropWhile isJsWS).reverse.dropWhile isJsWS).reverse⟩

/-! ## ScheduleConfigModal: TIME_RE, nextTimeSlot, normalizeTimes, normalizeDaySchedule -/

/-- Embedded `TIME_RE = /^([01]\d|2[0-3]):[0-5]\d$/` — 24h `HH:MM` test. -/
def timeRe (s : String) : Bool :=
  match s.data with
  | [a, b, c, d, e] =>
    (((a == '0' || a == '1') && isDigitChar b) || (a == '2' && charLe '0' b && charLe b '3'))
      && c == ':' && (charLe '0' d && charLe d '5') && isDigitChar e
  | _ => false

/-- Embedded `nextTimeSlot(time, stepHours)` from ScheduleConfigModal: advance the hour by
`stepHours` (mod 24), keeping the minute; `parseInt(...) || 8` / `|| 30` fallbacks
apply when the parse is `NaN` **or zero** (JavaScript falsiness). -/
def nextTimeSlot (time : String) (stepHours : Nat) : String :=
  let hour : Int :=
    match jsParseInt (strSlice time 0 2) with
    | some h => if h == 0 then 8 else h
    | none => 8
  let minute : Int :=
    match jsParseInt (strSlice time 3 5) with
    | some m => if m == 0 then 30 else m
    | none => 30
  padStart2 (jsMod (hour + stepHours) 24) ++ ":" ++ padStart2 minute

/-- The inner `for (let i = 0; i < 24 && out.includes(candidate); i++)` search of
`normalizeTimes`, with explicit fuel (24 at the call site). -/
def findFree (out : List String) : String → Nat → String
  | c, 0 => c
  | c, n + 1 => if c ∈ out then findFree out (nextTimeSlot c 1) n else c

/-- The `while (out.length < postsPerDay)` filling loop of `normalizeTimes`. -/
def fillLoop (p : Nat) (out : List String) : List String :=
  if _h : out.length < p then
    let c := findFree out (nextTimeSlot (out.getLastD "08:30") 2) 24
    if c ∈ out then out else fillLoop p (out ++ [c])
  else out
termination_by p - out.length
decreasing_by simp only [List.length_append, List.length_cons, List.length_nil]; omega

/-- An element of the incoming `times` array: whether the JavaScript value is a
string, and the result of `String(value || "")`. -/
structure JsItem where
  isString : Bool
  coerced : String
deriving DecidableEq

/-- The body of the `source.forEach` loop of `normalizeTimes`: trim, validate
against TIME_RE, deduplicate, push. -/
def pushSlot (out : List String) (item : JsItem) : List String :=
  let slot := jsTrim item.coerced
  if timeRe slot then (if slot ∈ out then out else out ++ [slot]) else out

/-- Embedded `normalizeTimes(times, fallbackTime, postsPerDay)` from ScheduleConfigModal. -/
def normalizeTimes (times : Option (List JsItem)) (fallbackTime : String)
    (postsPerDay : Nat) : List String :=
  let source := times.getD []
  let out0 := source.foldl pushSlot []
  let out1 := if timeRe fallbackTime = true ∧ fallbackTime ∉ out0
    then fallbackTime :: out0 else out0
  let out2 := if out1 = [] then ["08:30"] else out1
  (fillLoop postsPerDay out2).take postsPerDay

/-- The `DaySchedule` record of the frontend scheduler types (enabled, legacy
single slot `time`, posts_per_day, times). -/
structure DaySchedule where
  enabled : Bool
  time : Option String
  posts_per_day : Nat
  times : List String
deriving DecidableEq

/-- The (arbitrary, possibly malformed) input object accepted by
`normalizeDaySchedule`: `posts_per_day` is recorded through `String(...)`,
`time` is present exactly when the field holds a string, `times` is present
exactly when the field holds an array. -/
structure DayScheduleInput where
  enabled : Bool
  posts_per_day : Option String
  time : Option String
  times : Option (List JsItem)
deriving DecidableEq

/-- The second disjunct of the `fallbackTime` computation:
`Array.isArray(input?.times) && typeof input?.times[0] === "string" && input.times[0]`,
with `"08:30"` as final fallback. -/
def fallbackFromTimes : Option (List JsItem) → String
  | some (item :: _) => if item.isString = true ∧ item.coerced ≠ "" then item.coerced else "08:30"
  | _ => "08:30"

/-- The `postsPerDay` clamp of `normalizeDaySchedule`:
`parseInt(String(input?.posts_per_day ?? 1), 10)` clamped into `[1, 10]`,
defaulting to 1 when the parse is `NaN`. -/
def dayPostsPerDay (input : Option DayScheduleInput) : Nat :=
  match jsParseInt ((input.bind (·.posts_per_day)).getD "1") with
  | some r => (max 1 (min 10 r)).toNat
  | none => 1

/-- The `fallbackTime` chain of `normalizeDaySchedule`: a TIME_RE-valid string
`time` field, else the first element of `times` when it is a non-empty string,
else `"08:30"`. -/
def dayFallbackTime (input : Option DayScheduleInput) : String :=
  match input.bind (·.time) with
  | some t => if timeRe t then t else fallbackFromTimes (input.bind (·.times))
  | none => fallbackFromTimes (input.bind (·.times))

/-- Embedded `normalizeDaySchedule(input)` from ScheduleConfigModal. -/
def normalizeDaySchedule (input : Option DayScheduleInput) : DaySchedule :=
  let postsPerDay := dayPostsPerDay input
  let times := normalizeTimes (input.bind (·.times)) (dayFallbackTime input) postsPerDay
  { enabled := (input.map (·.enabled)).getD false
    time :=
      match times with
      | [] => none
      | t :: _ => if t = "" then none else some t
    posts_per_day := postsPerDay
    times := times }

/-- Re-reading a produced `DaySchedule` object as input (the identity embedding a
JavaScript object undergoes when passed back to `normalizeDaySchedule`). -/
def toInput (d : DaySchedule) : DayScheduleInput :=
  { enabled := d.enabled
    posts_per_day := some (toString d.posts_per_day)
    time := d.time
    times := some (d.times.map (fun t => { isString := true, coerced := t })) }

/-- Embedded `updateDay` from ScheduleConfigModal: normalize the stored value, apply the
updater, and normalize the result. -/
def updateDayValue (updater : DaySchedule → DaySchedule) (prev : Option DaySchedule) :
    DaySchedule :=
  normalizeDaySchedule (some (toInput (updater (normalizeDaySchedule (prev.map toInput)))))

/-! ## Proof infrastructure: canonical form of TIME_RE-valid strings -/

/-- The two decimal digit characters of a number below 100. -/
def twoDigitChars (n : Nat) : List Char := [Char.ofNat (48 + n / 10), Char.ofNat (48 + n % 10)]

/-- Canonical `HH:MM` string for hour `h` and minute `m`. -/
def mkTime (h m : Nat) : String := ⟨twoDigitChars h ++ ':' :: twoDigitChars m⟩

/-- The effective hour read back by `nextTimeSlot` (`parseInt || 8`). -/
def hfix (h : Nat) : Nat := if h = 0 then 8 else h

/-- The effective minute read back by `nextTimeSlot` (`parseInt || 30`). -/
def mfix (m : Nat) : Nat := if m = 0 then 30 else m

/-- One hour-advancing step of the candidate search in `normalizeTimes`. -/
def gstep (h : Nat) : Nat := (hfix h + 1) % 24

theorem parse_twoDigit : ∀ n < 100, jsParseIntChars (twoDigitChars n) = some (n : Int) := by
  decide

theorem padStart2_twoDigit : ∀ n : Nat, n < 100 → padStart2 (n : Int) = String.mk (twoDigitChars n) := by
  decide

theorem timeRe_mkTime : ∀ h < 24, ∀ m < 60, timeRe (mkTime h m) = true := by decide

theorem twoDigit_inj : ∀ h < 24, ∀ h' < 24, twoDigitChars h = twoDigitChars h' → h = h' := by
  decide

theorem gstep_lt : ∀ h < 24, gstep h < 24 := by decide

theorem gIter_nodup : ∀ h < 24, (((List.range 16).map (fun j => gstep^[j+1] h))).Nodup := by
  decide

theorem hfix_lt (h : Nat) (hh : h < 24) : hfix h < 24 := by
  unfold hfix; split <;> omega

theorem mfix_lt (m : Nat) (hm : m < 60) : mfix m < 60 := by
  unfold mfix; split <;> omega

theorem mfix_ne_zero (m : Nat) : mfix m ≠ 0 := by
  unfold mfix; split <;> omega

theorem twoDigitChars_of_chars {x y : Char} (hx : 48 ≤ x.toNat) (hx9 : x.toNat ≤ 57)
    (hy : 48 ≤ y.toNat) (hy9 : y.toNat ≤ 57) :
    twoDigitChars ((x.toNat - 48) * 10 + (y.toNat - 48)) = [x, y] := by
  have h1 : ((x.toNat - 48) * 10 + (y.toNat - 48)) / 10 = x.toNat - 48 := by omega
  have h2 : ((x.toNat - 48) * 10 + (y.toNat - 48)) % 10 = y.toNat - 48 := by omega
  have e1 : 48 + (x.toNat - 48) = x.toNat := by omega
  have e2 : 48 + (y.toNat - 48) = y.toNat := by omega
  simp [twoDigitChars, h1, h2, e1, e2, Char.ofNat_toNat]

theorem string_mk_append (l1 l2 : List Char) :
    (⟨l1⟩ : String) ++ ":" ++ ⟨l2⟩ = ⟨l1 ++ ':' :: l2⟩ := by
  show String.mk _ = _
  simp [String.instAppend, String.append]

theorem nextTimeSlot_mkTime (h m k : Nat) (hh : h < 24) (hm : m < 60) :
    nextTimeSlot (mkTime h m) k = mkTime ((hfix h + k) % 24) (mfix m) := by
  have ph : jsParseInt (strSlice (mkTime h m) 0 2) = some (h : Int) := by
    show jsParseIntChars (twoDigitChars h) = some (h : Int)
    exact parse_twoDigit h (by omega)
  have pm : jsParseInt (strSlice (mkTime h m) 3 5) = some (m : Int) := by
    show jsParseIntChars (twoDigitChars m) = some (m : Int)
    exact parse_twoDigit m (by omega)
  simp only [nextTimeSlot, ph, pm]
  have hhour : (if (h : Int) == 0 then (8 : Int) else (h : Int)) = ((hfix h : Nat) : Int) := by
    unfold hfix
    by_cases h0 : h = 0 <;> simp [h0]
  have hmin : (if (m : Int) == 0 then (30 : Int) else (m : Int)) = ((mfix m : Nat) : Int) := by
    unfold mfix
    by_cases m0 : m = 0 <;> simp [m0]
  rw [hhour, hmin]
  have hcast : ((hfix h : Nat) : Int) + (k : Int) = ((hfix h + k : Nat) : Int) := by
    push_cast; ring
  rw [hcast]
  have hmod : ∀ n : Nat, jsMod ((n : Nat) : Int) 24 = ((n % 24 : Nat) : Int) := by
    intro n
    unfold jsMod
    rw [if_pos (by positivity)]
    simp
  rw [hmod]
  rw [padStart2_twoDigit _ (by omega), padStart2_twoDigit _ (by omega)]
  exact string_mk_append _ _

theorem timeRe_spec {s : String} (h : timeRe s = true) :
    ∃ hh mm, hh < 24 ∧ mm < 60 ∧ s = mkTime hh mm := by
  obtain ⟨data⟩ := s
  rcases data with _ | ⟨a, _ | ⟨b, _ | ⟨c, _ | ⟨d, _ | ⟨e, _ | ⟨f, rest⟩⟩⟩⟩⟩⟩ <;>
    simp only [timeRe, isDigitChar, charLe, Bool.and_eq_true, Bool.or_eq_true,
      beq_iff_eq, Nat.ble_eq] at h
  case mk.cons.cons.cons.cons.cons.nil =>
    obtain ⟨⟨hhour, hcolon⟩, hd1, hd2⟩ := h.1
    obtain ⟨he1, he2⟩ := h.2
    have c0 : ('0' : Char).toNat = 48 := rfl
    have c3 : ('3' : Char).toNat = 51 := rfl
    have c5 : ('5' : Char).toNat = 53 := rfl
    have c9 : ('9' : Char).toNat = 57 := rfl
    simp only [c0, c3, c5, c9] at hd1 hd2 he1 he2 hhour
    subst hcolon
    have hb : 48 ≤ b.toNat ∧ b.toNat ≤ 57 ∧
        (a.toNat = 48 ∨ a.toNat = 49 ∨ (a.toNat = 50 ∧ b.toNat ≤ 51)) := by
      rcases hhour with ⟨ha, hb1, hb2⟩ | ⟨⟨ha, hb1⟩, hb2⟩
      · rcases ha with rfl | rfl
        · exact ⟨hb1, hb2, Or.inl rfl⟩
        · exact ⟨hb1, hb2, Or.inr (Or.inl rfl)⟩
      · subst ha
        exact ⟨hb1, by omega, Or.inr (Or.inr ⟨rfl, hb2⟩)⟩
    refine ⟨(a.toNat - 48) * 10 + (b.toNat - 48), (d.toNat - 48) * 10 + (e.toNat - 48),
      by omega, by omega, ?_⟩
    have goal2 : twoDigitChars ((a.toNat - 48) * 10 + (b.toNat - 48)) = [a, b] :=
      twoDigitChars_of_chars (by omega) (by omega) (by omega) (by omega)
    have goal3 : twoDigitChars ((d.toNat - 48) * 10 + (e.toNat - 48)) = [d, e] :=
      twoDigitChars_of_chars (by omega) (by omega) (by omega) (by omega)
    rw [mkTime, goal2, goal3]
    rfl
  all_goals exact absurd h (by simp)

theorem gIter_lt (h : Nat) (hh : h < 24) : ∀ i, gstep^[i] h < 24 := by
  intro i
  induction i with
  | zero => simpa
  | succ n ih => rw [Function.iterate_succ_apply']; exact gstep_lt _ ih

theorem mkTime_ne_empty (h m : Nat) : mkTime h m ≠ "" := by
  intro heq
  have hdata := congrArg String.data heq
  have hnil : ("" : String).data = [] := rfl
  simp [mkTime, twoDigitChars, hnil] at hdata

theorem valid_ne_empty {t : String} (h : timeRe t = true) : t ≠ "" := by
  obtain ⟨hh, mm, _, _, rfl⟩ := timeRe_spec h
  exact mkTime_ne_empty _ _

theorem nextTimeSlot_valid {t : String} (ht : timeRe t = true) (k : Nat) :
    timeRe (nextTimeSlot t k) = true := by
  obtain ⟨h, m, hh, hm, rfl⟩ := timeRe_spec ht
  rw [nextTimeSlot_mkTime _ _ _ hh hm]
  exact timeRe_mkTime _ (Nat.mod_lt _ (by omega)) _ (mfix_lt m hm)

theorem mkTime_inj_hour {x y m : Nat} (hx : x < 24) (hy : y < 24)
    (he : mkTime x m = mkTime y m) : x = y := by
  have hdata := congrArg String.data he
  simp only [mkTime] at hdata
  have hlen : (twoDigitChars x).length = (twoDigitChars y).length := rfl
  exact twoDigit_inj x hx y hy (List.append_inj hdata hlen).1

theorem findFree_spec (out : List String) (m0 : Nat) (hm : m0 < 60) (hm0 : m0 ≠ 0) :
    ∀ fuel h0, h0 < 24 →
      (∃ i < fuel, mkTime (gstep^[i] h0) m0 ∉ out) →
      findFree out (mkTime h0 m0) fuel ∉ out ∧
      ∃ h1, h1 < 24 ∧ findFree out (mkTime h0 m0) fuel = mkTime h1 m0 := by
  intro fuel
  induction fuel with
  | zero =>
    rintro h0 hh0 ⟨i, hi, _⟩
    omega
  | succ n ih =>
    intro h0 hh0 hex
    by_cases hc : mkTime h0 m0 ∈ out
    · have hstep : nextTimeSlot (mkTime h0 m0) 1 = mkTime (gstep h0) m0 := by
        rw [nextTimeSlot_mkTime _ _ _ hh0 hm]
        have hmf : mfix m0 = m0 := by unfold mfix; simp [hm0]
        rw [hmf]
        rfl
      have hex' : ∃ i < n, mkTime (gstep^[i] (gstep h0)) m0 ∉ out := by
        obtain ⟨i, hi, hni⟩ := hex
        cases i with
        | zero =>
          simp only [Function.iterate_zero, id_eq] at hni
          exact absurd hc hni
        | succ j =>
          refine ⟨j, by omega, ?_⟩
          rwa [Function.iterate_succ_apply] at hni
      obtain ⟨res1, res2⟩ := ih (gstep h0) (gstep_lt h0 hh0) hex'
      constructor
      · simpa [findFree, hc, hstep] using res1
      · obtain ⟨h1, hlt, heq⟩ := res2
        exact ⟨h1, hlt, by simpa [findFree, hc, hstep] using heq⟩
    · constructor
      · simp [findFree, hc]
      · exact ⟨h0, hh0, by simp [findFree, hc]⟩

theorem exists_free (out : List String) (hlen : out.length ≤ 9) (h0 m0 : Nat)
    (hh0 : h0 < 24) : ∃ i < 24, mkTime (gstep^[i] h0) m0 ∉ out := by
  by_contra hall
  push_neg at hall
  set L := (List.range 16).map (fun j => mkTime (gstep^[j+1] h0) m0) with hL
  have hnd : L.Nodup := by
    have hhn : ((List.range 16).map (fun j => gstep^[j+1] h0)).Nodup := gIter_nodup h0 hh0
    have hmap : L = ((List.range 16).map (fun j => gstep^[j+1] h0)).map
        (fun h => mkTime h m0) := by
      rw [hL, List.map_map]
      rfl
    rw [hmap]
    refine List.Nodup.map_on ?_ hhn
    intro x hx y hy hxy
    obtain ⟨j, hj, rfl⟩ := List.mem_map.1 hx
    obtain ⟨j', hj', rfl⟩ := List.mem_map.1 hy
    exact mkTime_inj_hour (gIter_lt h0 hh0 (j+1)) (gIter_lt h0 hh0 (j'+1)) hxy
  have hsub : ∀ x ∈ L, x ∈ out := by
    intro x hx
    rw [hL] at hx
    obtain ⟨j, hj, rfl⟩ := List.mem_map.1 hx
    simp only [List.mem_range] at hj
    exact hall (j+1) (by omega)
  have hlen16 : L.length = 16 := by simp [hL]
  have hle : L.length ≤ out.length := by
    calc L.length = L.toFinset.card := (List.toFinset_card_of_nodup hnd).symm
      _ ≤ out.toFinset.card :=
        Finset.card_le_card (fun x hx => List.mem_toFinset.2 (hsub x (List.mem_toFinset.1 hx)))
      _ ≤ out.length := out.toFinset_card_le
  omega

theorem getLastD_mem_self (l : List String) (hne : l ≠ []) (d : String) : l.getLastD d ∈ l := by
  induction l generalizing d with
  | nil => contradiction
  | cons a t ih =>
    cases t with
    | nil => simp [List.getLastD]
    | cons b t2 =>
      have hstep : (a :: b :: t2).getLastD d = (b :: t2).getLastD a := rfl
      rw [hstep]
      exact List.mem_cons_of_mem a (ih (by simp) a)

theorem fillLoop_of_ge (p : Nat) (out : List String) (h : p ≤ out.length) :
    fillLoop p out = out := by
  unfold fillLoop
  rw [dif_neg (by omega)]

theorem fillLoop_spec :
    ∀ n p out, p ≤ 10 → p - out.length ≤ n → out ≠ [] →
      (∀ t ∈ out, timeRe t = true) → out.Nodup →
      (∀ t ∈ fillLoop p out, timeRe t = true) ∧ (fillLoop p out).Nodup ∧
      p ≤ (fillLoop p out).length ∧ fillLoop p out ≠ [] := by
  intro n
  induction n with
  | zero =>
    intro p out hp hn hne hv hnd
    rw [fillLoop_of_ge p out (by omega)]
    exact ⟨hv, hnd, by omega, hne⟩
  | succ n ih =>
    intro p out hp hn hne hv hnd
    by_cases hlt : out.length < p
    · have hlast : out.getLastD "08:30" ∈ out := getLastD_mem_self out hne _
      have hlastv : timeRe (out.getLastD "08:30") = true := hv _ hlast
      obtain ⟨h, m, hh, hm, hmk⟩ := timeRe_spec hlastv
      have hc0 : nextTimeSlot (out.getLastD "08:30") 2 = mkTime ((hfix h + 2) % 24) (mfix m) := by
        rw [hmk]
        exact nextTimeSlot_mkTime h m 2 hh hm
      have hh0 : (hfix h + 2) % 24 < 24 := Nat.mod_lt _ (by omega)
      have hm0lt : mfix m < 60 := mfix_lt m hm
      have hm0ne : mfix m ≠ 0 := mfix_ne_zero m
      have hex : ∃ i < 24, mkTime (gstep^[i] ((hfix h + 2) % 24)) (mfix m) ∉ out :=
        exists_free out (by omega) _ _ hh0
      obtain ⟨hnotmem, h1, hh1, hshape⟩ := findFree_spec out (mfix m) hm0lt hm0ne 24 _ hh0 hex
      unfold fillLoop
      rw [dif_pos hlt]
      simp only [hc0]
      rw [if_neg hnotmem]
      refine ih p _ hp (by simp only [List.length_append, List.length_cons, List.length_nil]; omega)
        (by simp) ?_ ?_
      · intro t ht
        rcases List.mem_append.1 ht with hto | htc
        · exact hv t hto
        · have : t = findFree out (mkTime ((hfix h + 2) % 24) (mfix m)) 24 := by
            simpa using htc
          rw [this, hshape]
          exact timeRe_mkTime h1 hh1 _ hm0lt
      · refine List.Nodup.append hnd (by simp) ?_
        intro a ha hac
        have : a = findFree out (mkTime ((hfix h + 2) % 24) (mfix m)) 24 := by simpa using hac
        rw [this] at ha
        exact hnotmem ha
    · rw [fillLoop_of_ge p out (by omega)]
      exact ⟨hv, hnd, by omega, hne⟩

theorem isJsWS_digit : ∀ n < 10, isJsWS (Char.ofNat (48 + n)) = false := by decide

theorem trim_of_valid {t : String} (ht : timeRe t = true) : jsTrim t = t := by
  obtain ⟨h, m, hh, hm, rfl⟩ := timeRe_spec ht
  have h1 : isJsWS (Char.ofNat (48 + h / 10)) = false := isJsWS_digit _ (by omega)
  have h4 : isJsWS (Char.ofNat (48 + m % 10)) = false := isJsWS_digit _ (by omega)
  show String.mk _ = _
  simp [mkTime, twoDigitChars, jsTrim, List.dropWhile, h1, h4]

theorem foldl_pushSlot_invariant :
    ∀ (src : List JsItem) (acc : List String),
      (∀ t ∈ acc, timeRe t = true) → acc.Nodup →
      (∀ t ∈ src.foldl pushSlot acc, timeRe t = true) ∧ (src.foldl pushSlot acc).Nodup := by
  intro src
  induction src with
  | nil => intro acc hv hnd; exact ⟨hv, hnd⟩
  | cons it rest ih =>
    intro acc hv hnd
    simp only [List.foldl_cons]
    apply ih
    · intro t ht
      simp only [pushSlot] at ht
      by_cases h1 : timeRe (jsTrim it.coerced) = true
      · rw [if_pos h1] at ht
        by_cases h2 : jsTrim it.coerced ∈ acc
        · rw [if_pos h2] at ht
          exact hv t ht
        · rw [if_neg h2] at ht
          rcases List.mem_append.1 ht with hmem | hmem
          · exact hv t hmem
          · have : t = jsTrim it.coerced := by simpa using hmem
            rw [this]
            exact h1
      · rw [if_neg h1] at ht
        exact hv t ht
    · simp only [pushSlot]
      by_cases h1 : timeRe (jsTrim it.coerced) = true
      · rw [if_pos h1]
        by_cases h2 : jsTrim it.coerced ∈ acc
        · rw [if_pos h2]
          exact hnd
        · rw [if_neg h2]
          refine List.Nodup.append hnd (by simp) ?_
          intro a ha hac
          have : a = jsTrim it.coerced := by simpa using hac
          rw [this] at ha
          exact h2 ha
      · rw [if_neg h1]
        exact hnd

theorem foldl_pushSlot_id :
    ∀ (l acc : List String), (∀ t ∈ l, timeRe t = true) → (acc ++ l).Nodup →
      (l.map (fun t => ({ isString := true, coerced := t } : JsItem))).foldl pushSlot acc
        = acc ++ l := by
  intro l
  induction l with
  | nil => intro acc _ _; simp
  | cons t rest ih =>
    intro acc hv hnd
    have hvt : timeRe t = true := hv t (by simp)
    have htr : jsTrim t = t := trim_of_valid hvt
    have hmem : t ∉ acc := by
      intro hmem
      exact (List.nodup_append.1 hnd).2.2 hmem (by simp)
    have hstep : pushSlot acc ⟨true, t⟩ = acc ++ [t] := by
      simp only [pushSlot, htr]
      rw [if_pos hvt, if_neg hmem]
    simp only [List.map_cons, List.foldl_cons, hstep]
    have hrec := ih (acc ++ [t]) (fun x hx => hv x (by simp [hx]))
      (by rw [List.append_assoc]; simpa using hnd)
    rw [hrec, List.append_assoc]
    simp

theorem timeRe_0830 : timeRe "08:30" = true := by decide

theorem normalizeTimes_spec (times : Option (List JsItem)) (fb : String) (p : Nat)
    (hp10 : p ≤ 10) :
    (normalizeTimes times fb p).length = p ∧ (normalizeTimes times fb p).Nodup ∧
      ∀ t ∈ normalizeTimes times fb p, timeRe t = true := by
  set source := times.getD [] with hsource
  set out0 := source.foldl pushSlot [] with hout0
  set out1 := (if timeRe fb = true ∧ fb ∉ out0 then fb :: out0 else out0) with hout1
  set out2 := (if out1 = [] then ["08:30"] else out1) with hout2
  have heq : normalizeTimes times fb p = (fillLoop p out2).take p := rfl
  obtain ⟨hv0, hnd0⟩ := foldl_pushSlot_invariant source [] (by simp) (by simp)
  rw [← hout0] at hv0 hnd0
  have hv1 : ∀ t ∈ out1, timeRe t = true := by
    rw [hout1]
    by_cases hcond : timeRe fb = true ∧ fb ∉ out0
    · rw [if_pos hcond]
      intro t ht
      rcases List.mem_cons.1 ht with rfl | hmem
      · exact hcond.1
      · exact hv0 t hmem
    · rw [if_neg hcond]
      exact hv0
  have hnd1 : out1.Nodup := by
    rw [hout1]
    by_cases hcond : timeRe fb = true ∧ fb ∉ out0
    · rw [if_pos hcond]
      exact List.Nodup.cons hcond.2 hnd0
    · rw [if_neg hcond]
      exact hnd0
  have hv2 : ∀ t ∈ out2, timeRe t = true := by
    rw [hout2]
    by_cases hcond : out1 = []
    · rw [if_pos hcond]
      intro t ht
      have heq30 : t = "08:30" := by simpa using ht
      rw [heq30]
      exact timeRe_0830
    · rw [if_neg hcond]
      exact hv1
  have hnd2 : out2.Nodup := by
    rw [hout2]
    by_cases hcond : out1 = []
    · rw [if_pos hcond]
      simp
    · rw [if_neg hcond]
      exact hnd1
  have hne2 : out2 ≠ [] := by
    rw [hout2]
    by_cases hcond : out1 = []
    · rw [if_pos hcond]
      simp
    · rw [if_neg hcond]
      exact hcond
  obtain ⟨hvf, hndf, hlenf, hnef⟩ :=
    fillLoop_spec (p - out2.length) p out2 hp10 le_rfl hne2 hv2 hnd2
  rw [heq]
  refine ⟨?_, ?_, ?_⟩
  · rw [List.length_take]
    omega
  · exact List.Nodup.sublist (List.take_sublist p _) hndf
  · intro t ht
    exact hvf t (List.mem_of_mem_take ht)

theorem dayPostsPerDay_bounds (input : Option DayScheduleInput) :
    1 ≤ dayPostsPerDay input ∧ dayPostsPerDay input ≤ 10 := by
  unfold dayPostsPerDay
  cases hj : jsParseInt ((input.bind (·.posts_per_day)).getD "1") with
  | none => simp
  | some r =>
    simp only
    have h1 : (1 : Int) ≤ max 1 (min 10 r) := le_max_left _ _
    have h2 : max 1 (min 10 r) ≤ 10 := max_le (by norm_num) (min_le_left _ _)
    omega

theorem normD_times_eq (input : Option DayScheduleInput) :
    (normalizeDaySchedule input).times
      = normalizeTimes (input.bind (·.times)) (dayFallbackTime input) (dayPostsPerDay input) :=
  rfl

theorem normD_ppd_eq (input : Option DayScheduleInput) :
    (normalizeDaySchedule input).posts_per_day = dayPostsPerDay input := rfl

theorem normD_enabled_eq (input : Option DayScheduleInput) :
    (normalizeDaySchedule input).enabled = (input.map (·.enabled)).getD false := rfl

theorem normD_time_eq (input : Option DayScheduleInput) :
    (normalizeDaySchedule input).time
      = match (normalizeDaySchedule input).times with
        | [] => none
        | t :: _ => if t = "" then none else some t := rfl

theorem normD_valid (input : Option DayScheduleInput) :
    1 ≤ (normalizeDaySchedule input).posts_per_day ∧
    (normalizeDaySchedule input).posts_per_day ≤ 10 ∧
    (normalizeDaySchedule input).times.length = (normalizeDaySchedule input).posts_per_day ∧
    (normalizeDaySchedule input).times.Nodup ∧
    ∀ t ∈ (normalizeDaySchedule input).times, timeRe t = true := by
  obtain ⟨h1, h10⟩ := dayPostsPerDay_bounds input
  obtain ⟨hlen, hnd, hv⟩ :=
    normalizeTimes_spec (input.bind (·.times)) (dayFallbackTime input) (dayPostsPerDay input) h10
  rw [normD_times_eq, normD_ppd_eq]
  exact ⟨h1, h10, hlen, hnd, hv⟩

theorem normD_times_ne_nil (input : Option DayScheduleInput) :
    (normalizeDaySchedule input).times ≠ [] := by
  obtain ⟨h1, _, hlen, _, _⟩ := normD_valid input
  intro h
  rw [h] at hlen
  simp at hlen
  omega

theorem normD_time_head (input : Option DayScheduleInput) :
    (normalizeDaySchedule input).time = (normalizeDaySchedule input).times.head? := by
  obtain ⟨_, _, _, _, hv⟩ := normD_valid input
  rw [normD_time_eq]
  cases hts : (normalizeDaySchedule input).times with
  | nil => rfl
  | cons t rest =>
    have htv : timeRe t = true := hv t (by rw [hts]; simp)
    simp only
    rw [if_neg (valid_ne_empty htv)]
    rfl

theorem jsParseInt_toString_small : ∀ p : Nat, p < 11 → jsParseInt (toString p) = some (p : Int) := by
  decide

theorem normalizeTimes_id (l : List String) (hv : ∀ t ∈ l, timeRe t = true) (hnd : l.Nodup)
    (t0 : String) (ht0 : t0 ∈ l) (p : Nat) (hlen : l.length = p) :
    normalizeTimes (some (l.map (fun t => ({ isString := true, coerced := t } : JsItem)))) t0 p
      = l := by
  have hout0 : (l.map (fun t => ({ isString := true, coerced := t } : JsItem))).foldl
      pushSlot [] = l := by
    have hid := foldl_pushSlot_id l [] hv (by simpa using hnd)
    simpa using hid
  have hne : l ≠ [] := List.ne_nil_of_mem ht0
  have h1 : (if timeRe t0 = true ∧ t0 ∉ l then t0 :: l else l) = l := by
    rw [if_neg]
    rintro ⟨_, habs⟩
    exact habs ht0
  have h3 : fillLoop p l = l := fillLoop_of_ge p l (by omega)
  have h4 : l.take p = l := by rw [← hlen]; exact List.take_length l
  unfold normalizeTimes
  simp only [Option.getD_some]
  rw [hout0, h1, if_neg hne, h3, h4]

theorem normD_idem (input : Option DayScheduleInput) :
    normalizeDaySchedule (some (toInput (normalizeDaySchedule input)))
      = normalizeDaySchedule input := by
  obtain ⟨hp1, hp10, hlen, hnd, hv⟩ := normD_valid input
  have hne : (normalizeDaySchedule input).times ≠ [] := normD_times_ne_nil input
  obtain ⟨t0, rest, hcons⟩ := List.exists_cons_of_ne_nil hne
  have ht0 : t0 ∈ (normalizeDaySchedule input).times := by rw [hcons]; simp
  have ht0v : timeRe t0 = true := hv t0 ht0
  have htime : (normalizeDaySchedule input).time = some t0 := by
    rw [normD_time_head, hcons]
    rfl
  have hppd2 : dayPostsPerDay (some (toInput (normalizeDaySchedule input)))
      = (normalizeDaySchedule input).posts_per_day := by
    unfold dayPostsPerDay
    have hbind : ((some (toInput (normalizeDaySchedule input))).bind (·.posts_per_day)).getD "1"
        = toString (normalizeDaySchedule input).posts_per_day := rfl
    rw [hbind, jsParseInt_toString_small _ (by omega)]
    simp only
    rw [min_eq_right (by exact_mod_cast hp10), max_eq_right (by exact_mod_cast hp1)]
    simp
  have hfb2 : dayFallbackTime (some (toInput (normalizeDaySchedule input))) = t0 := by
    unfold dayFallbackTime
    have hbind : (some (toInput (normalizeDaySchedule input))).bind (·.time)
        = (normalizeDaySchedule input).time := rfl
    rw [hbind, htime]
    simp only
    rw [if_pos ht0v]
  have htimes2 : (normalizeDaySchedule (some (toInput (normalizeDaySchedule input)))).times
      = (normalizeDaySchedule input).times := by
    rw [normD_times_eq, hppd2, hfb2]
    have hbind : (some (toInput (normalizeDaySchedule input))).bind (·.times)
        = some ((normalizeDaySchedule input).times.map
            (fun t => ({ isString := true, coerced := t } : JsItem))) := rfl
    rw [hbind]
    exact normalizeTimes_id _ hv hnd t0 ht0 _ hlen
  have e1 : (normalizeDaySchedule (some (toInput (normalizeDaySchedule input)))).enabled
      = (normalizeDaySchedule input).enabled := rfl
  have e2 : (normalizeDaySchedule (some (toInput (normalizeDaySchedule input)))).time
      = (normalizeDaySchedule input).time := by
    rw [normD_time_head, htimes2, ← normD_time_head]
  have e3 : (normalizeDaySchedule (some (toInput (normalizeDaySchedule input)))).posts_per_day
      = (normalizeDaySchedule input).posts_per_day := by
    rw [normD_ppd_eq, hppd2]
  calc normalizeDaySchedule (some (toInput (normalizeDaySchedule input)))
      = ⟨(normalizeDaySchedule (some (toInput (normalizeDaySchedule input)))).enabled,
         (normalizeDaySchedule (some (toInput (normalizeDaySchedule input)))).time,
         (normalizeDaySchedule (some (toInput (normalizeDaySchedule input)))).posts_per_day,
         (normalizeDaySchedule (some (toInput (normalizeDaySchedule input)))).times⟩ := rfl
    _ = ⟨(normalizeDaySchedule input).enabled, (normalizeDaySchedule input).time,
         (normalizeDaySchedule input).posts_per_day, (normalizeDaySchedule input).times⟩ := by
        rw [e1, e2, e3, htimes2]
    _ = normalizeDaySchedule input := rfl

/-! ## Claim theorems for the day-schedule normalizer -/

/-- C2: for every input day-schedule object (including missing, malformed or
out-of-range fields), `normalizeDaySchedule` returns a `DaySchedule` whose
`posts_per_day` is an integer in `[1, 10]` and whose `times` list has length
exactly `posts_per_day`, contains no duplicates, and contains only strings
matching the 24-hour `HH:MM` format of `TIME_RE`. -/
theorem C2_normalizeDaySchedule_wellformed (input : Option DayScheduleInput) :
    1 ≤ (normalizeDaySchedule input).posts_per_day ∧
    (normalizeDaySchedule input).posts_per_day ≤ 10 ∧
    (normalizeDaySchedule input).times.length = (normalizeDaySchedule input).posts_per_day ∧
    (normalizeDaySchedule input).times.Nodup ∧
    ∀ t ∈ (normalizeDaySchedule input).times, timeRe t = true :=
  normD_valid input

/-- C3: the legacy single-slot field `time` always equals the first element of
`times` for every `DaySchedule` produced by `normalizeDaySchedule`, and this
invariant is preserved by every edit operation performed through `updateDay`
(which re-normalizes the result of an arbitrary updater). -/
theorem C3_time_is_head_of_times :
    (∀ input : Option DayScheduleInput,
      (normalizeDaySchedule input).time = (normalizeDaySchedule input).times.head?) ∧
    (∀ (updater : DaySchedule → DaySchedule) (prev : Option DaySchedule),
      (updateDayValue updater prev).time = (updateDayValue updater prev).times.head?) :=
  ⟨fun input => normD_time_head input,
   fun updater prev => normD_time_head
     (some (toInput (updater (normalizeDaySchedule (prev.map toInput)))))⟩

/-- C10: `normalizeDaySchedule` is idempotent — re-normalizing an already
normalized day schedule changes none of `enabled`, `time`, `posts_per_day`,
`times`. -/
theorem C10_normalizeDaySchedule_idempotent (input : Option DayScheduleInput) :
    normalizeDaySchedule (some (toInput (normalizeDaySchedule input)))
      = normalizeDaySchedule input :=
  normD_idem input

/-! ## Scheduler data model (frontend `types/scheduler.ts`) -/

/-- Queue entry status (`"pending" | "processing" | "completed" | "error" | "skipped"`). -/
inductive QueueStatus where
  | pending
  | processing
  | completed
  | error
  | skipped
deriving DecidableEq, Repr

/-- Embedded `QueueItem` from the scheduler types (fields used by the panel and the runner). -/
structure QueueItem where
  id : Nat
  scheduled_date : String
  scheduled_time : Option String
  topic : Option String
  template : Option Nat
  status : QueueStatus
  post_id : Option Nat
  result_message : Option String
  runs_total : Nat
  runs_completed : Nat
deriving DecidableEq, Repr

/-- Embedded `NextRun` from the scheduler types; `hours_until` is a fractional number. -/
structure NextRun where
  day_name : String
  date : String
  time : String
  topic : Option String
  hours_until : ℚ
deriving DecidableEq

/-- Embedded `SchedulerConfig` from the scheduler types: the `schedule` record maps day
names to day schedules. -/
structure SchedulerConfig where
  enabled : Bool
  schedule : String → Option DaySchedule

/-- Embedded `SchedulerState` from the scheduler types — the composite state polled by
consumers, exposing the process-wide `pipeline_running` flag. -/
structure SchedulerState where
  config : SchedulerConfig
  queue : List QueueItem
  next_run : Option NextRun
  pipeline_running : Bool
  timezone : String

/-! ## SchedulerPanel: formatNextRun and the remove-button guard -/

/-- Embedded `DAY_LABELS_SHORT` lookup from SchedulerPanel. -/
def dayLabelsShort (s : String) : Option String :=
  if s = "monday" then some "Lun"
  else if s = "tuesday" then some "Mar"
  else if s = "wednesday" then some "Mié"
  else if s = "thursday" then some "Jue"
  else if s = "friday" then some "Vie"
  else if s = "saturday" then some "Sáb"
  else if s = "sunday" then some "Dom"
  else none

/-- JavaScript `s.slice(k)` (drop the first `k` characters). -/
def jsSliceFrom (s : String) (k : Nat) : String := ⟨s.data.drop k⟩

/-- JavaScript `Math.round` on a rational. -/
def jsRound (q : ℚ) : Int := Rat.floor (q + 1 / 2)

/-- Embedded `formatNextRun(next)` from SchedulerPanel: the idle placeholder for `null`,
otherwise day label, `MM-DD` date slice, time and a rounded hours/days rendering. -/
def formatNextRun (next : Option NextRun) : String :=
  match next with
  | none => "Sin publicaciones pendientes"
  | some n =>
    let dayLabel := (dayLabelsShort n.day_name).getD n.day_name
    let d := jsSliceFrom n.date 5
    let h := n.hours_until
    let hStr :=
      if h < 1 then "<1h"
      else if h < 24 then toString (jsRound h) ++ "h"
      else toString (jsRound (h / 24)) ++ "d"
    dayLabel ++ " " ++ d ++ " " ++ n.time ++ " (en " ++ hStr ++ ")"

/-- The CardPopover render guard: the remove button is rendered exactly when
`item.status === "pending"`. -/
def removeOffered (item : QueueItem) : Bool := item.status == QueueStatus.pending

/-- Modelled from the spec: `remove(id)` of the Queue Store (§4.2) — absent from
src/ — fails with `InvalidStateError` unless the entry's status is `pending`;
on failure no state change occurs (the error carries no queue). -/
def removeEntry (queue : List QueueItem) (id : Nat) : Except String (List QueueItem) :=
  match queue.find? (fun e => e.id == id) with
  | none => Except.error "NotFound"
  | some e =>
    if e.status == QueueStatus.pending
    then Except.ok (queue.filter (fun x => !(x.id == id)))
    else Except.error "InvalidStateError"

/-! ## PostsHistory / PostDetailModal guards -/

/-- Embedded `PostRecord` from the frontend types (fields used by the guards). -/
structure PostRecord where
  id : Nat
  topic : Option String
  status : Option String
  ig_media_id : Option String
deriving DecidableEq

/-- Embedded `canRetry(status?)` from PostsHistory. -/
def canRetry (status : Option String) : Bool :=
  status == some "generated" || status == some "publish_error"

/-- Embedded `canPublish(status?)` from PostsHistory. -/
def canPublish (status : Option String) : Bool := status == some "draft"

/-- Embedded `String(post?.status || "")` from PostDetailModal. -/
def modalStatus (post : Option PostRecord) : String := (post.bind (·.status)).getD ""

/-- The PostDetailModal publish guard: `status === "draft"`. -/
def modalCanPublish (post : Option PostRecord) : Bool := modalStatus post == "draft"

/-! ## useScheduler / usePolling -/

/-- The effect of `usePolling(callback, intervalMs, active)`: an interval timer of
`intervalMs` milliseconds is installed exactly when `active` is true. -/
def usePollingIntervalMs (intervalMs : Nat) (active : Bool) : Option Nat :=
  if active then some intervalMs else none

/-- The polling installed by `useScheduler`: `usePolling(refresh, 30_000, true)`. -/
def useSchedulerPolling : Option Nat := usePollingIntervalMs 30000 true

/-- The config submitted by `toggle()` in `useScheduler`: same `schedule` object,
negated `enabled`. -/
def togglePayload (data : SchedulerState) : SchedulerConfig :=
  { enabled := !data.config.enabled, schedule := data.config.schedule }

/-- Embedded `toggle()` including its `if (!data) return;` guard: no request when no state
is loaded. -/
def toggleRequest (data : Option SchedulerState) : Option SchedulerConfig :=
  data.map togglePayload

/-! ## The dashboard `syncNow` callback (sweep-report consumer) -/

/-- The fields of the sweep report read by `syncNow`; numeric fields are optional
(`?? 0` fallbacks in the source), and the two boolean fields record the
truthiness of `data.partial` (here `parcial` — the original name is unavailable
in this development) and `data.timed_out`. -/
structure SyncData where
  checked : Option Int
  updated : Option Int
  failed : Option Int
  pending_checked : Option Int
  pending_reconciled : Option Int
  import_created : Option Int
  import_existing : Option Int
  parcial : Bool
  timed_out : Bool
  remaining : Option Int
  elapsed_seconds : Option Int
deriving DecidableEq

/-- Embedded `const partial = Boolean(data.partial || data.timed_out)` from `syncNow`. -/
def syncIncomplete (d : SyncData) : Bool := d.parcial || d.timed_out

/-- The `${elapsed || "?"}` rendering inside the partial suffix (a zero or absent
elapsed count is falsy and prints as `"?"`). -/
def syncElapsedText (d : SyncData) : String :=
  if d.elapsed_seconds.getD 0 ≠ 0 then toString (d.elapsed_seconds.getD 0) else "?"

/-- The `partialSuffix` of the `syncNow` log line. -/
def syncPartSuffix (d : SyncData) : String :=
  if syncIncomplete d
  then " Parcial por tiempo (" ++ syncElapsedText d ++ "s), quedan "
      ++ toString (d.remaining.getD 0) ++ " posts pendientes."
  else ""

/-- The `importSuffix` of the `syncNow` log line. -/
def syncImportSuffix (d : SyncData) : String :=
  if d.import_created.getD 0 > 0 ∨ d.import_existing.getD 0 > 0
  then " Importados " ++ toString (d.import_created.getD 0) ++ " nuevos ("
      ++ toString (d.import_existing.getD 0) ++ " ya existentes)."
  else ""

/-- The counts part of the `syncNow` log line, up to and including the import
suffix (everything before the partial suffix). -/
def syncHead (d : SyncData) : String :=
  "Sync IG: revisados " ++ toString (d.checked.getD 0)
    ++ ", actualizados " ++ toString (d.updated.getD 0)
    ++ ", fallidos " ++ toString (d.failed.getD 0)
    ++ ". Pendientes revisados " ++ toString (d.pending_checked.getD 0)
    ++ ", reconciliados " ++ toString (d.pending_reconciled.getD 0)
    ++ "." ++ syncImportSuffix d

/-- The full message `syncNow` pushes to the activity log. -/
def syncMessage (d : SyncData) : String := syncHead d ++ syncPartSuffix d

/-- The log level chosen by `syncNow` (`failed > 0 ? "error" : "success"`). -/
def syncEntryLevel (d : SyncData) : String :=
  if d.failed.getD 0 > 0 then "error" else "success"

/-! ## Spec-modelled Execution Runner (single-flight) -/

/-- Modelled from the spec: the Execution Runner state of §4.4 — the process-wide
`pipeline_running` lock together with the queue; this backend component is absent
from src/. -/
structure RunnerState where
  pipeline_running : Bool
  queue : List QueueItem
deriving Repr

/-- Modelled from the spec: select the earliest due `pending` entry (the queue is
kept in schedule order) and transition it to `processing`; `none` when no entry
is due. -/
def markFirstDue (due : QueueItem → Bool) : List QueueItem → Option (List QueueItem)
  | [] => none
  | e :: rest =>
    if e.status == QueueStatus.pending && due e
    then some ({ e with status := QueueStatus.processing } :: rest)
    else (markFirstDue due rest).map (e :: ·)

/-- Modelled from the spec: `runDue()` of §4.4 — a second call while one entry is
in flight is a no-op (the `pipeline_running` lock is checked-and-set atomically);
otherwise the earliest due pending entry transitions to `processing` and the lock
is taken for the whole pipeline invocation. -/
def runDue (due : QueueItem → Bool) (s : RunnerState) : RunnerState :=
  if s.pipeline_running then s
  else
    match markFirstDue due s.queue with
    | none => s
    | some q => { pipeline_running := true, queue := q }

/-- Number of queue entries currently in `processing`. -/
def countProcessing (q : List QueueItem) : Nat :=
  q.countP (fun e => e.status == QueueStatus.processing)

/-- Modelled from the spec: the Scheduler Service (§4.7) exposes the runner's
queue and `pipeline_running` flag, with config, next run and timezone, as the
composite `SchedulerState` polled by consumers. -/
def exposeState (s : RunnerState) (config : SchedulerConfig) (next_run : Option NextRun)
    (timezone : String) : SchedulerState :=
  { config := config
    queue := s.queue
    next_run := next_run
    pipeline_running := s.pipeline_running
    timezone := timezone }

/-! ## Runner lemmas and claim theorems C1, C4, C5, C8, C9 -/

/-- Single-flight invariant: at most one `processing` entry, and none while the
lock is free. -/
def RunnerInv (s : RunnerState) : Prop :=
  countProcessing s.queue ≤ 1 ∧ (s.pipeline_running = false → countProcessing s.queue = 0)

theorem markFirstDue_count (due : QueueItem → Bool) :
    ∀ (q q' : List QueueItem), markFirstDue due q = some q' →
      countProcessing q' = countProcessing q + 1 := by
  intro q
  induction q with
  | nil => intro q' h; simp [markFirstDue] at h
  | cons e rest ih =>
    intro q' h
    simp only [markFirstDue] at h
    by_cases hc : (e.status == QueueStatus.pending && due e) = true
    · rw [if_pos hc] at h
      have hq := Option.some.inj h
      subst hq
      have hpend : e.status = QueueStatus.pending := by
        simp only [Bool.and_eq_true, beq_iff_eq] at hc
        exact hc.1
      simp [countProcessing, List.countP_cons, hpend]
    · rw [if_neg hc] at h
      cases hm : markFirstDue due rest with
      | none => rw [hm] at h; simp at h
      | some r =>
        rw [hm] at h
        simp only [Option.map_some'] at h
        have hq := Option.some.inj h
        subst hq
        have hr := ih r hm
        simp [countProcessing, List.countP_cons] at hr ⊢
        omega

theorem runDue_preserves (due : QueueItem → Bool) (s : RunnerState) (h : RunnerInv s) :
    RunnerInv (runDue due s) := by
  unfold runDue
  by_cases hp : s.pipeline_running = true
  · rw [if_pos hp]; exact h
  · have hp' : s.pipeline_running = false := by simpa using hp
    rw [if_neg hp]
    cases hm : markFirstDue due s.queue with
    | none => exact h
    | some q =>
      have hc := markFirstDue_count due s.queue q hm
      have h0 := h.2 hp'
      exact ⟨by show countProcessing q ≤ 1; omega, fun habs => by simp at habs⟩

theorem runDue_iterate (due : QueueItem → Bool) (n : Nat) (s : RunnerState) (h : RunnerInv s) :
    RunnerInv ((runDue due)^[n] s) := by
  induction n with
  | zero => simpa
  | succ k ih => rw [Function.iterate_succ_apply']; exact runDue_preserves due _ ih

/-- C1: single-flight execution — starting from a quiescent state (lock free, no
entry `processing`), any number of `runDue()` invocations transitions at most one
entry from `pending` to `processing` (at most one entry is ever in `processing`),
and the Scheduler Service exposes the `pipeline_running` flag unchanged in the
composite `SchedulerState`. -/
theorem C1_single_flight (due : QueueItem → Bool) (n : Nat) (s : RunnerState)
    (_hflag : s.pipeline_running = false) (hzero : countProcessing s.queue = 0) :
    countProcessing (((runDue due)^[n]) s).queue ≤ 1 ∧
    ∀ (config : SchedulerConfig) (next_run : Option NextRun) (tz : String),
      (exposeState (((runDue due)^[n]) s) config next_run tz).pipeline_running
        = (((runDue due)^[n]) s).pipeline_running :=
  ⟨(runDue_iterate due n s ⟨by omega, fun _ => hzero⟩).1, fun _ _ _ => rfl⟩

/-- A concrete pending entry used by the witnesses. -/
def samplePending (i : Nat) : QueueItem :=
  { id := i
    scheduled_date := "2026-10-13"
    scheduled_time := some "08:30"
    topic := none
    template := none
    status := QueueStatus.pending
    post_id := none
    result_message := none
    runs_total := 1
    runs_completed := 0 }

theorem C1_single_flight_witness :
    countProcessing (((runDue (fun _ => true))^[3])
      ⟨false, [samplePending 1, samplePending 2]⟩).queue ≤ 1 :=
  (C1_single_flight (fun _ => true) 3 ⟨false, [samplePending 1, samplePending 2]⟩
    rfl rfl).1

/-- C4: removal is possible only while `pending` — the panel offers the remove
button exactly for `pending` entries, and the store's `remove` fails with
`InvalidStateError` (returning no new queue, hence no state change) on any entry
that is not `pending`, in particular a `processing` one. -/
theorem C4_remove_only_pending :
    (∀ item : QueueItem, removeOffered item = true ↔ item.status = QueueStatus.pending) ∧
    (∀ (queue : List QueueItem) (i : Nat) (e : QueueItem),
      queue.find? (fun x => x.id == i) = some e → e.status ≠ QueueStatus.pending →
      removeEntry queue i = Except.error "InvalidStateError") := by
  constructor
  · intro item
    simp [removeOffered]
  · intro queue i e hfind hne
    unfold removeEntry
    rw [hfind]
    exact if_neg (by simpa using hne)

/-- A concrete processing entry used by the C4 witness. -/
def sampleProcessing : QueueItem :=
  { samplePending 7 with status := QueueStatus.processing }

theorem C4_remove_only_pending_witness :
    removeEntry [sampleProcessing] 7 = Except.error "InvalidStateError" :=
  C4_remove_only_pending.2 [sampleProcessing] 7 sampleProcessing rfl (by decide)

/-- C5: the manual publish action is offered iff a record's status is `draft`
(both in the history list and in the detail modal), and the retry action is
offered iff the status is `generated` or `publish_error`; in particular neither
is offered for `published_deleted`, so no UI action starts a transition outside
the status graph. -/
theorem C5_status_guards :
    (∀ s : Option String, canPublish s = true ↔ s = some "draft") ∧
    (∀ s : Option String, canRetry s = true ↔ (s = some "generated" ∨ s = some "publish_error")) ∧
    (∀ post : Option PostRecord, modalCanPublish post = true ↔
      post.bind (·.status) = some "draft") ∧
    canPublish (some "published_deleted") = false ∧
    canRetry (some "published_deleted") = false := by
  refine ⟨?_, ?_, ?_, rfl, rfl⟩
  · intro s
    simp [canPublish]
  · intro s
    simp [canRetry]
  · intro post
    cases hb : post.bind (·.status) with
    | none => simp [modalCanPublish, modalStatus, hb]
    | some s => simp [modalCanPublish, modalStatus, hb]

/-- C8: `useScheduler` polls through `usePolling` with an interval of exactly
30000 milliseconds and the `active` flag hard-wired to `true`; `usePolling`
installs a timer of the given interval exactly when active. -/
theorem C8_poll_interval :
    useSchedulerPolling = some 30000 ∧
    (∀ ms : Nat, usePollingIntervalMs ms true = some ms) ∧
    (∀ ms : Nat, usePollingIntervalMs ms false = none) :=
  ⟨rfl, fun _ => rfl, fun _ => rfl⟩

/-- C9: toggling the scheduler submits a config whose `schedule` map is the very
same per-day map previously loaded (pointwise identical), with only `enabled`
negated; with no loaded state, no request is made. -/
theorem C9_toggle_frame :
    (∀ data : SchedulerState,
      (togglePayload data).enabled = !data.config.enabled ∧
      (togglePayload data).schedule = data.config.schedule ∧
      ∀ day : String, (togglePayload data).schedule day = data.config.schedule day) ∧
    toggleRequest none = none :=
  ⟨fun _ => ⟨rfl, rfl, fun _ => rfl⟩, rfl⟩

/-! ## Substring containment -/

/-- Holds when `sub` occurs as a contiguous substring of `s`. -/
def strContains (s sub : String) : Prop := sub.data <:+: s.data

instance (s sub : String) : Decidable (strContains s sub) :=
  inferInstanceAs (Decidable (sub.data <:+: s.data))

theorem strContains_of_data (s m : String) (x y : List Char)
    (h : s.data = x ++ m.data ++ y) : strContains s m :=
  ⟨x, y, h.symm⟩

theorem data_mk (l : List Char) : (String.mk l).data = l := rfl

example : strContains "hello world" "lo wo" := by decide

/-- The rendered hours string of `formatNextRun`. -/
def hoursText (h : ℚ) : String :=
  if h < 1 then "<1h"
  else if h < 24 then toString (jsRound h) ++ "h"
  else toString (jsRound (h / 24)) ++ "d"

theorem formatNextRun_data (n : NextRun) :
    (formatNextRun (some n)).data
      = ((dayLabelsShort n.day_name).getD n.day_name).data ++ " ".data
        ++ (jsSliceFrom n.date 5).data ++ " ".data ++ n.time.data ++ " (en ".data
        ++ (hoursText n.hours_until).data ++ ")".data := by
  simp [formatNextRun, hoursText, String.data_append, List.append_assoc]

/-- C7: a null next run renders as the fixed idle placeholder, and a non-null one
renders as a string containing the (short-label) day name, the `MM-DD` slice of
the date, the time, and the rounded rendering of `hours_until`. -/
theorem C7_formatNextRun_total (n : NextRun) :
    formatNextRun none = "Sin publicaciones pendientes" ∧
    (strContains (formatNextRun (some n)) n.time ∧
     strContains (formatNextRun (some n)) ((dayLabelsShort n.day_name).getD n.day_name) ∧
     (∀ y md : String, n.date = y ++ "-" ++ md → y.length = 4 →
       strContains (formatNextRun (some n)) md) ∧
     (n.hours_until < 1 → strContains (formatNextRun (some n)) "<1h") ∧
     (1 ≤ n.hours_until → n.hours_until < 24 →
       strContains (formatNextRun (some n)) (toString (jsRound n.hours_until) ++ "h")) ∧
     (24 ≤ n.hours_until →
       strContains (formatNextRun (some n)) (toString (jsRound (n.hours_until / 24)) ++ "d"))) := by
  refine ⟨rfl, ?_, ?_, ?_, ?_, ?_, ?_⟩
  · refine strContains_of_data _ _
      (((dayLabelsShort n.day_name).getD n.day_name).data ++ " ".data
        ++ (jsSliceFrom n.date 5).data ++ " ".data)
      (" (en ".data ++ (hoursText n.hours_until).data ++ ")".data) ?_
    rw [formatNextRun_data]
    simp [List.append_assoc]
  · refine strContains_of_data _ _ []
      (" ".data ++ (jsSliceFrom n.date 5).data ++ " ".data ++ n.time.data ++ " (en ".data
        ++ (hoursText n.hours_until).data ++ ")".data) ?_
    rw [formatNextRun_data]
    simp [List.append_assoc]
  · intro y md hdate hylen
    have hslice : (jsSliceFrom n.date 5).data = md.data := by
      show (n.date.data.drop 5) = md.data
      rw [hdate]
      have hlen5 : ((y ++ "-").data).length = 5 := by
        rw [String.data_append]
        have : y.data.length = 4 := hylen
        simp [this]
      rw [String.data_append, List.drop_left' hlen5]
    refine strContains_of_data _ _
      (((dayLabelsShort n.day_name).getD n.day_name).data ++ " ".data)
      (" ".data ++ n.time.data ++ " (en ".data
        ++ (hoursText n.hours_until).data ++ ")".data) ?_
    rw [formatNextRun_data, ← hslice]
    simp [List.append_assoc]
  · intro hlt
    have hh : hoursText n.hours_until = "<1h" := by
      unfold hoursText
      rw [if_pos hlt]
    refine strContains_of_data _ _
      (((dayLabelsShort n.day_name).getD n.day_name).data ++ " ".data
        ++ (jsSliceFrom n.date 5).data ++ " ".data ++ n.time.data ++ " (en ".data)
      (")".data) ?_
    rw [formatNextRun_data, hh]
  · intro h1 h24
    have hh : hoursText n.hours_until = toString (jsRound n.hours_until) ++ "h" := by
      unfold hoursText
      rw [if_neg (by linarith), if_pos h24]
    refine strContains_of_data _ _
      (((dayLabelsShort n.day_name).getD n.day_name).data ++ " ".data
        ++ (jsSliceFrom n.date 5).data ++ " ".data ++ n.time.data ++ " (en ".data)
      (")".data) ?_
    rw [formatNextRun_data, hh]
  · intro h24
    have hh : hoursText n.hours_until = toString (jsRound (n.hours_until / 24)) ++ "d" := by
      unfold hoursText
      rw [if_neg (by linarith), if_neg (by linarith)]
    refine strContains_of_data _ _
      (((dayLabelsShort n.day_name).getD n.day_name).data ++ " ".data
        ++ (jsSliceFrom n.date 5).data ++ " ".data ++ n.time.data ++ " (en ".data)
      (")".data) ?_
    rw [formatNextRun_data, hh]

theorem syncPartSuffix_of_incomplete (d : SyncData) (h : syncIncomplete d = true) :
    syncPartSuffix d = " Parcial por tiempo (" ++ syncElapsedText d ++ "s), quedan "
      ++ toString (d.remaining.getD 0) ++ " posts pendientes." := by
  rw [syncPartSuffix, if_pos h]

theorem syncPartSuffix_ne_empty (d : SyncData) (h : syncIncomplete d = true) :
    syncPartSuffix d ≠ "" := by
  rw [syncPartSuffix_of_incomplete d h]
  intro habs
  have hl := congrArg String.length habs
  rw [String.length_append, String.length_append, String.length_append,
    String.length_append] at hl
  have h21 : (" Parcial por tiempo (" : String).length = 21 := rfl
  have h0 : ("" : String).length = 0 := rfl
  rw [h21, h0] at hl
  omega

/-- C6 (amended): the consumer treats the sweep as incomplete exactly when the
report's `partial` or `timed_out` flag is set; in that case the log line carries
the partial suffix reporting the remaining backlog count and the elapsed
seconds, with a `"?"` placeholder when the elapsed count is zero or absent. -/
theorem C6_sync_report_honesty (d : SyncData) :
    (syncIncomplete d = true ↔ (d.parcial = true ∨ d.timed_out = true)) ∧
    (∃ pre, syncMessage d = pre ++ syncPartSuffix d) ∧
    (syncPartSuffix d = "" ↔ syncIncomplete d = false) ∧
    (syncIncomplete d = true →
      strContains (syncMessage d)
        ("quedan " ++ toString (d.remaining.getD 0) ++ " posts pendientes.")) ∧
    (syncIncomplete d = true → d.elapsed_seconds.getD 0 ≠ 0 →
      strContains (syncMessage d) ("(" ++ toString (d.elapsed_seconds.getD 0) ++ "s)")) ∧
    (syncIncomplete d = true → d.elapsed_seconds.getD 0 = 0 →
      strContains (syncMessage d) "(?s)") := by
  refine ⟨?_, ⟨syncHead d, rfl⟩, ?_, ?_, ?_, ?_⟩
  · simp [syncIncomplete]
  · constructor
    · intro h
      cases hin : syncIncomplete d with
      | false => rfl
      | true => exact absurd h (syncPartSuffix_ne_empty d hin)
    · intro h
      rw [syncPartSuffix, if_neg (by simp [h])]
  · intro h
    have hsplit : ("s), quedan " : String).data = ("s), " : String).data
        ++ ("quedan " : String).data := by decide
    refine strContains_of_data _ _
      ((syncHead d).data ++ (" Parcial por tiempo (" : String).data
        ++ (syncElapsedText d).data ++ ("s), " : String).data) [] ?_
    show (syncMessage d).data = _
    rw [syncMessage, String.data_append, syncPartSuffix_of_incomplete d h]
    simp only [String.data_append, hsplit]
    simp [List.append_assoc]
  · intro h he
    have hel : syncElapsedText d = toString (d.elapsed_seconds.getD 0) := by
      rw [syncElapsedText, if_pos he]
    have hsplit1 : (" Parcial por tiempo (" : String).data
        = (" Parcial por tiempo " : String).data ++ ("(" : String).data := by decide
    have hsplit2 : ("s), quedan " : String).data = ("s)" : String).data
        ++ (", quedan " : String).data := by decide
    refine strContains_of_data _ _
      ((syncHead d).data ++ (" Parcial por tiempo " : String).data)
      ((", quedan " : String).data ++ (toString (d.remaining.getD 0)).data
        ++ (" posts pendientes." : String).data) ?_
    show (syncMessage d).data = _
    rw [syncMessage, String.data_append, syncPartSuffix_of_incomplete d h, hel]
    simp only [String.data_append, hsplit1, hsplit2]
    simp [List.append_assoc]
  · intro h he
    have hel : syncElapsedText d = "?" := by
      rw [syncElapsedText, if_neg (by simp [he])]
    have hsplit1 : (" Parcial por tiempo (" : String).data
        = (" Parcial por tiempo " : String).data ++ ("(" : String).data := by decide
    have hsplit2 : ("s), quedan " : String).data = ("s)" : String).data
        ++ (", quedan " : String).data := by decide
    refine strContains_of_data _ _
      ((syncHead d).data ++ (" Parcial por tiempo " : String).data)
      ((", quedan " : String).data ++ (toString (d.remaining.getD 0)).data
        ++ (" posts pendientes." : String).data) ?_
    show (syncMessage d).data = _
    rw [syncMessage, String.data_append, syncPartSuffix_of_incomplete d h, hel]
    simp only [String.data_append, hsplit1, hsplit2]
    simp [List.append_assoc]

/-- A sweep report that hit its time budget with `elapsed_seconds = 0`. -/
def syncZeroElapsed : SyncData :=
  { checked := some 1, updated := some 1, failed := some 1, pending_checked := some 1,
    pending_reconciled := some 1, import_created := none, import_existing := none,
    parcial := true, timed_out := false, remaining := some 5, elapsed_seconds := some 0 }

set_option maxRecDepth 4000 in
/-- C6 counterexample: for the report with `partial = true`, `elapsed_seconds = 0`
and `remaining = 5`, the consumer does treat the sweep as incomplete but renders
`"?"` in place of the elapsed seconds — the message contains `"(?s)"` and does not
contain the decimal rendering `"0s"` of the elapsed count — so "reports the
elapsed seconds" is false as stated. -/
theorem C6_counterexample_zero_elapsed :
    syncIncomplete syncZeroElapsed = true ∧
    strContains (syncMessage syncZeroElapsed) "(?s)" ∧
    ¬ strContains (syncMessage syncZeroElapsed)
        (toString (syncZeroElapsed.elapsed_seconds.getD 0) ++ "s") :=
  ⟨rfl, by decide, by decide⟩

/-- A sweep report that hit its time budget after 36 seconds with 3 records left. -/
def syncElapsed36 : SyncData :=
  { checked := some 2, updated := some 1, failed := some 0, pending_checked := some 1,
    pending_reconciled := some 0, import_created := none, import_existing := none,
    parcial := false, timed_out := true, remaining := some 3, elapsed_seconds := some 36 }

theorem C6_sync_report_honesty_witness :
    strContains (syncMessage syncElapsed36) ("(" ++ toString (36 : Int) ++ "s)") ∧
    strContains (syncMessage syncElapsed36)
      ("quedan " ++ toString (3 : Int) ++ " posts pendientes.") := by
  obtain ⟨-, -, -, hq, he, -⟩ := C6_sync_report_honesty syncElapsed36
  exact ⟨he rfl (by decide), hq rfl⟩

/-- A concrete next run used by the C7 witness. -/
def sampleNextRun : NextRun :=
  { day_name := "monday", date := "2026-10-17", time := "08:30", topic := none,
    hours_until := 5 }

theorem C7_formatNextRun_total_witness :
    strContains (formatNextRun (some sampleNextRun)) "08:30" ∧
    strContains (formatNextRun (some sampleNextRun)) "Lun" ∧
    strContains (formatNextRun (some sampleNextRun)) "10-17" ∧
    strContains (formatNextRun (some sampleNextRun)) (toString (jsRound (5 : ℚ)) ++ "h") := by
  obtain ⟨-, ht, hlab, hmd, -, hh, -⟩ := C7_formatNextRun_total sampleNextRun
  refine ⟨ht, ?_, ?_, ?_⟩
  · have hc : (dayLabelsShort sampleNextRun.day_name).getD sampleNextRun.day_name = "Lun" := rfl
    exact hc ▸ hlab
  · exact hmd "2026" "10-17" (by decide) (by decide)
  · exact hh (by norm_num : (1 : ℚ) ≤ 5) (by norm_num : (5 : ℚ) < 24)
